import Mathlib

/-!
Verification of the PnL aggregation engine of the `sashboard` repository
(`src/main.py` and `src/main2.py`).

The two Python files are near-duplicate variants of the same Streamlit app.
The parts relevant to the claims are embedded shallowly below:

* numbers are modelled as exact rationals (`ℚ`); a pandas/NumPy `NaN` value
  is modelled as `none` in an `Option ℚ`;
* Python's builtin `round(x, n)` is modelled by `pyRound n` — CPython rounds
  the exact value of its argument to `n` decimal digits using
  round-half-to-even (banker's rounding), which `pyRound` implements on `ℚ`;
* the `dict[str, dict]` accumulator of `calculate_token_pnl` (insertion
  ordered) is modelled as an association list built in encounter order;
* `pandas.DataFrame.sort_values("Net PnL", ascending=False)` is modelled by a
  sort of the row list by that key (tie order is unspecified by pandas'
  default unstable quicksort; the embedding uses a concrete insertion sort —
  all theorems about the sort only use that the result is a permutation
  ordered by the key);
* the price lookup transport (`client.ticker_price`, which may raise
  `ClientError`) is modelled by an `Option ℚ` argument: `some p` is a
  successful lookup returning price `p`, `none` is a lookup failure.
-/

/-- Round-half-to-even of a rational to an integer: the semantics of
CPython's builtin `round` on the exact value of its argument. -/
def rhe (q : ℚ) : ℤ :=
  let f := ⌊q⌋
  let r := q - (f : ℚ)
  if r < 1/2 then f
  else if 1/2 < r then f + 1
  else if f % 2 = 0 then f else f + 1

/-- Model of Python's `round(q, n)` on exact rationals: round-half-to-even
at `n` decimal digits. -/
def pyRound (n : ℕ) (q : ℚ) : ℚ :=
  (rhe (q * 10 ^ n) : ℚ) / 10 ^ n

/-- Round-half-away-from-zero at `n` decimal digits.  This is NOT taken from
the source: it follows the spec's words (§4.4 step 5, "standard
round-half-away-from-zero semantics") and exists only to be compared with
the source's rounding `pyRound`. -/
def roundHalfAway (n : ℕ) (q : ℚ) : ℚ :=
  (if 0 ≤ q then (⌊q * 10 ^ n + 1/2⌋ : ℚ) else -(⌊-(q * 10 ^ n) + 1/2⌋ : ℚ)) / 10 ^ n

theorem rhe_intCast (k : ℤ) : rhe (k : ℚ) = k := by
  simp [rhe]

/-- Rounding at `n` digits is the identity on exact multiples of `10 ^ (-n)`. -/
theorem pyRound_eq_self {n : ℕ} {q : ℚ} (h : ∃ k : ℤ, q = (k : ℚ) / 10 ^ n) :
    pyRound n q = q := by
  obtain ⟨k, rfl⟩ := h
  have hne : (10 : ℚ) ^ n ≠ 0 := by positivity
  rw [pyRound, div_mul_cancel₀ _ hne, rhe_intCast]

/-- The output of `pyRound n` is an exact multiple of `10 ^ (-n)`. -/
theorem pyRound_isMultiple (n : ℕ) (q : ℚ) : ∃ k : ℤ, pyRound n q = (k : ℚ) / 10 ^ n :=
  ⟨rhe (q * 10 ^ n), rfl⟩

/-- A sum of exact multiples of `10 ^ (-n)` is an exact multiple of `10 ^ (-n)`. -/
theorem sum_isMultiple {n : ℕ} {l : List ℚ} (h : ∀ x ∈ l, ∃ k : ℤ, x = (k : ℚ) / 10 ^ n) :
    ∃ k : ℤ, l.sum = (k : ℚ) / 10 ^ n := by
  induction l with
  | nil => exact ⟨0, by simp⟩
  | cons x xs ih =>
    obtain ⟨k, hk⟩ := h x (List.mem_cons_self x xs)
    obtain ⟨m, hm⟩ := ih fun y hy => h y (List.mem_cons_of_mem _ hy)
    exact ⟨k + m, by push_cast [List.sum_cons, hk, hm]; ring⟩

/-! ## Raw spreadsheet cells and the numeric normalizers

`get_trades_from_file` in both files runs the numeric columns through
`.astype(str)` followed by string cleanup and `pd.to_numeric(errors="coerce")`.
A raw cell is either Python `None`, a missing value (pandas `NaN`), or a
string; `.astype(str)` renders `None` as `"None"` and `NaN` as `"nan"`.
An unparseable string coerces to `NaN` (`none` here); `main2.py` additionally
ends with `.fillna(0)`, which makes its normalizer total into `ℚ`. -/

/-- A raw cell of the Excel export, as seen by the numeric-column cleanup. -/
inductive RawCell
  | null
  | nan
  | str (s : String)
deriving DecidableEq

/-- Model of pandas `.astype(str)` on one cell. -/
def astypeStr : RawCell → String
  | .null => "None"
  | .nan => "nan"
  | .str s => s

/-- The apostrophe character (the legacy escape marker stripped by
`.str.lstrip("'")`). -/
def apos : Char := Char.ofNat 39

/-- Model of `.str.lstrip("'")`: drop every leading apostrophe. -/
def lstripApos (s : String) : String :=
  String.mk (s.data.dropWhile (· = apos))

/-- Model of `.str.replace(",", "")` in `main2.py`: remove every comma. -/
def removeCommas (s : String) : String :=
  String.mk (s.data.filter (· ≠ ','))

/-- Value of a run of decimal digit characters. -/
def digitsToNat (cs : List Char) : ℕ :=
  cs.foldl (fun a c => a * 10 + (c.toNat - 48)) 0

/-- Model of the numeric core of `pd.to_numeric` on an unsigned token:
digits with at most one decimal point, at least one digit in total.
(The export cells are plain decimal literals; exponent and whitespace forms
are not exercised by this repository's data or by the claims.) -/
def parseUnsigned (cs : List Char) : Option ℚ :=
  match cs.splitOn '.' with
  | [w] =>
    if w ≠ [] ∧ w.all (·.isDigit) then some (digitsToNat w) else none
  | [w, f] =>
    if (w ≠ [] ∨ f ≠ []) ∧ w.all (·.isDigit) ∧ f.all (·.isDigit) then
      some ((digitsToNat w : ℚ) + (digitsToNat f : ℚ) / 10 ^ f.length)
    else none
  | _ => none

/-- Model of `pd.to_numeric(cell, errors="coerce")` on one already-cleaned
string cell: `none` is pandas `NaN` (either a coerced parse failure or the
literal token `"nan"`, which pandas also turns into `NaN`). -/
def parseDecimal (s : String) : Option ℚ :=
  match s.data with
  | [] => none
  | c :: rest =>
    if c = '-' then (parseUnsigned rest).map (fun q => -q)
    else if c = '+' then parseUnsigned rest
    else parseUnsigned (c :: rest)

/-- The numeric-cell normalizer of `src/main.py` `get_trades_from_file`
(lines 46–52): `astype(str)`, `lstrip("'")`, `.replace("", "0")`,
`to_numeric(errors="coerce")`.  No comma stripping and no `fillna`, so an
unparseable cell stays `NaN` (`none`). -/
def normalize1 (c : RawCell) : Option ℚ :=
  let s := lstripApos (astypeStr c)
  let s := if s = "" then "0" else s
  parseDecimal s

/-- The numeric-cell normalizer of `src/main2.py` `get_trades_from_file`
(lines 115–125): `astype(str)`, `lstrip("'")`, `.str.replace(",", "")`,
`.replace(["", "nan", "None"], "0")`, `to_numeric(errors="coerce")`,
`.fillna(0)`.  Total into `ℚ`. -/
def normalize2 (c : RawCell) : ℚ :=
  let s := removeCommas (lstripApos (astypeStr c))
  let s := if s = "" ∨ s = "nan" ∨ s = "None" then "0" else s
  (parseDecimal s).getD 0

example : normalize2 (.str "'0.5") = 1/2 := by
  simp +decide [normalize2, removeCommas, lstripApos, astypeStr, parseDecimal, parseUnsigned,
    digitsToNat, apos, List.splitOn, List.splitOnP, List.splitOnP.go]
  norm_num
example : normalize2 (.str "") = 0 := by decide
example : normalize2 (.str "1,234.5") = 12345/10 := by
  simp +decide [normalize2, removeCommas, lstripApos, astypeStr, parseDecimal, parseUnsigned,
    digitsToNat, apos, List.splitOn, List.splitOnP, List.splitOnP.go]
  norm_num
example : normalize2 (.str "abc") = 0 := by decide
example : normalize2 .null = 0 := by decide
example : normalize1 (.str "abc") = none := by decide
example : normalize1 (.str "1,234.5") = none := by decide
example : normalize1 .null = none := by decide
example : normalize1 (.str "'0.5") = some (1/2) := by
  simp +decide [normalize1, lstripApos, astypeStr, parseDecimal, parseUnsigned,
    digitsToNat, apos, List.splitOn, List.splitOnP, List.splitOnP.go]
  norm_num
example : normalize1 (.str "") = some 0 := by decide

/-! ## File ingestion

`get_trades_from_file` reads the Excel export into a frame and builds one
trade dict per row.  A `FileRow` models one row of that export after
`pd.read_excel` (the `Date(UTC)` column as a timestamp, the other used
columns as raw cells; the `Fee Coin` column is assumed present, as in every
export this app reads — `main2.py`'s `row.get("Fee Coin", "USDC")` default
for a wholly absent column is not exercised).  `RawTrade` is the trade dict
shape; `none` in a numeric field is a `NaN` float. -/

/-- One row of the Excel trade-history export. -/
structure FileRow where
  date : ℤ
  symbol : String
  price : RawCell
  quantity : RawCell
  amount : RawCell
  fee : RawCell
  realizedProfit : RawCell
  feeCoin : String
deriving DecidableEq

/-- The trade dict built by either `get_trades_from_file`:
`{"symbol", "realizedPnl", "commission", "commissionAsset"}`.  A `none`
numeric field models a `NaN` float (Python's `float(x or 0)` keeps `NaN`,
since `NaN` is truthy). -/
structure RawTrade where
  symbol : String
  realizedPnl : Option ℚ
  commission : Option ℚ
  commissionAsset : String
deriving DecidableEq

instance : Inhabited RawTrade := ⟨⟨"", none, none, ""⟩⟩

/-- Trade built from one file row by `src/main.py` (lines 56–61). -/
def toRawTrade1 (r : FileRow) : RawTrade :=
  { symbol := r.symbol
    realizedPnl := normalize1 r.realizedProfit
    commission := normalize1 r.fee
    commissionAsset := r.feeCoin }

/-- Model of `src/main.py` `get_trades_from_file` (lines 38–62): keep the
rows with `Date(UTC) >= start_datetime`, then build one trade per kept row. -/
def get_trades_from_file1 (startDt : ℤ) (rows : List FileRow) : List RawTrade :=
  (rows.filter (fun r => startDt ≤ r.date)).map toRawTrade1

/-- Trade built from one file row by `src/main2.py` (lines 134–141). -/
def toRawTrade2 (r : FileRow) : RawTrade :=
  { symbol := r.symbol
    realizedPnl := some (normalize2 r.realizedProfit)
    commission := some (normalize2 r.fee)
    commissionAsset := r.feeCoin }

/-- Model of `src/main2.py` `get_trades_from_file` (lines 87–143): the date
filter is commented out in the source (line 128), so apart from the
empty-frame early return every row of the file becomes a trade; the
`start_datetime` argument is never consulted. -/
def get_trades_from_file2 (startDt : ℤ) (rows : List FileRow) : List RawTrade :=
  if rows = [] then [] else rows.map toRawTrade2

/-! ## The PnL aggregator

`calculate_token_pnl` (both files) walks the trade list once, keeping a
`dict[str, dict]` from symbol to accumulator.  Python dicts preserve
insertion order, so the dict is modelled as an association list to which a
new symbol is appended at its first occurrence.  The aggregator input is a
canonical trade with finite fields (the aggregator claims quantify over
these; `float(...)` on a finite value is the identity here). -/

/-- Canonical trade consumed by `calculate_token_pnl`. -/
structure Trade where
  symbol : String
  realizedPnl : ℚ
  commission : ℚ
  commissionAsset : String
deriving DecidableEq

/-- Per-symbol accumulator: the inner dict
`{"realized_pnl", "bnb_fees", "usdc_fees", "trades"}`. -/
structure SymAcc where
  realized_pnl : ℚ
  bnb_fees : ℚ
  usdc_fees : ℚ
  trades : ℕ
deriving DecidableEq

instance : Inhabited SymAcc := ⟨⟨0, 0, 0, 0⟩⟩

/-- The zero accumulator installed when a symbol is first seen. -/
def acc0 : SymAcc := ⟨0, 0, 0, 0⟩

/-- One trade's contribution to its symbol's accumulator (both files:
`main.py` lines 93–98, `main2.py` lines 182–188): `realized_pnl` and the
trade count always accrue; the commission goes to `bnb_fees` when
`commissionAsset == "BNB"`, to `usdc_fees` when it is `"USDC"` or `"USDT"`,
and nowhere otherwise. -/
def bump (a : SymAcc) (t : Trade) : SymAcc :=
  { realized_pnl := a.realized_pnl + t.realizedPnl
    bnb_fees := a.bnb_fees + (if t.commissionAsset = "BNB" then t.commission else 0)
    usdc_fees := a.usdc_fees +
      (if t.commissionAsset = "USDC" ∨ t.commissionAsset = "USDT" then t.commission else 0)
    trades := a.trades + 1 }

/-- Process one trade against the insertion-ordered dict: bump the existing
entry, or append a fresh zero entry (then bump it) for a new symbol. -/
def updateAssoc : List (String × SymAcc) → Trade → List (String × SymAcc)
  | [], t => [(t.symbol, bump acc0 t)]
  | (k, a) :: rest, t =>
    if k = t.symbol then (k, bump a t) :: rest
    else (k, a) :: updateAssoc rest t

/-- The grouping loop of `calculate_token_pnl` (identical in both files):
fold the trades into the symbol dict. -/
def buildData (trades : List Trade) : List (String × SymAcc) :=
  trades.foldl updateAssoc []

/-- First-match lookup in the symbol dict, defaulting to the zero
accumulator (a symbol that never occurs has the zero accumulator). -/
def getAcc : List (String × SymAcc) → String → SymAcc
  | [], _ => acc0
  | (k, a) :: rest, s => if k = s then a else getAcc rest s

/-- One emitted row of the PnL table (the per-row dict of both files:
`Token`, `Realized PnL`, `BNB Fees`, `BNB Fees (USDC)`, `Direct USDC Fees`,
`Total Fees (USDC)`, `Net PnL`, `Trades`). -/
structure Row where
  token : String
  realized_pnl : ℚ
  bnb_fees : ℚ
  bnb_fees_usdc : ℚ
  usdc_fees : ℚ
  total_fees : ℚ
  net_pnl : ℚ
  trades : ℕ
deriving DecidableEq

instance : Inhabited Row := ⟨⟨"", 0, 0, 0, 0, 0, 0, 0⟩⟩

/-- Row emission (both files: `main.py` lines 101–112, `main2.py` lines
191–205): derive the converted and net figures from one symbol's
accumulator, then round monetary fields to 2 decimals and the BNB quantity
to 5 decimals with Python's `round`. -/
def mkRow (price : ℚ) (e : String × SymAcc) : Row :=
  let vals := e.2
  let bnb_fees_usdc := vals.bnb_fees * price
  let total_fees := bnb_fees_usdc + vals.usdc_fees
  let net_pnl := vals.realized_pnl - total_fees
  { token := e.1
    realized_pnl := pyRound 2 vals.realized_pnl
    bnb_fees := pyRound 5 vals.bnb_fees
    bnb_fees_usdc := pyRound 2 bnb_fees_usdc
    usdc_fees := pyRound 2 vals.usdc_fees
    total_fees := pyRound 2 total_fees
    net_pnl := pyRound 2 net_pnl
    trades := vals.trades }

/-- The per-symbol row list, in dict (first-occurrence) order. -/
def pnlRows (price : ℚ) (trades : List Trade) : List Row :=
  (buildData trades).map (mkRow price)

/-- The TOTAL row of `src/main.py` (lines 116–123): the plain column sums of
the already-rounded per-symbol rows. -/
def totalRow1 (rows : List Row) : Row :=
  { token := "TOTAL"
    realized_pnl := (rows.map Row.realized_pnl).sum
    bnb_fees := (rows.map Row.bnb_fees).sum
    bnb_fees_usdc := (rows.map Row.bnb_fees_usdc).sum
    usdc_fees := (rows.map Row.usdc_fees).sum
    total_fees := (rows.map Row.total_fees).sum
    net_pnl := (rows.map Row.net_pnl).sum
    trades := (rows.map Row.trades).sum }

/-- The TOTAL row of `src/main2.py` (lines 213–222): the column sums of the
already-rounded per-symbol rows, passed once more through `round` (and
`int()` on the trade count, which on an exact integer count is the
identity). -/
def totalRow2 (rows : List Row) : Row :=
  { token := "TOTAL"
    realized_pnl := pyRound 2 (rows.map Row.realized_pnl).sum
    bnb_fees := pyRound 5 (rows.map Row.bnb_fees).sum
    bnb_fees_usdc := pyRound 2 (rows.map Row.bnb_fees_usdc).sum
    usdc_fees := pyRound 2 (rows.map Row.usdc_fees).sum
    total_fees := pyRound 2 (rows.map Row.total_fees).sum
    net_pnl := pyRound 2 (rows.map Row.net_pnl).sum
    trades := (rows.map Row.trades).sum }

/-- Insert a row into a list kept in descending `net_pnl` order: the row
goes after every row whose `net_pnl` is at least as large. -/
def insertByNet (r : Row) : List Row → List Row
  | [] => [r]
  | x :: xs => if x.net_pnl < r.net_pnl then r :: x :: xs else x :: insertByNet r xs

/-- Model of `df.sort_values("Net PnL", ascending=False)` in `src/main2.py`
(line 210): a sort of the rows by `net_pnl` descending.  pandas' default
quicksort fixes no tie order; the theorems below use only that the result is
a permutation of the input that is descending in `net_pnl`. -/
def sortByNetDesc (l : List Row) : List Row :=
  l.foldr insertByNet []

/-- Model of `src/main.py` `get_price` (lines 65–71): return the looked-up
price, or `0.0` on a `ClientError`. -/
def get_price1 (lookup : Option ℚ) : ℚ :=
  lookup.getD 0

/-- Model of `src/main2.py` `get_price` (lines 146–153): return the
looked-up price, or the fallback `1.0` on a `ClientError`. -/
def get_price2 (lookup : Option ℚ) : ℚ :=
  lookup.getD 1

/-- The BNB price actually used by `src/main2.py` `calculate_token_pnl`
(lines 161–164): `get_price`, replaced by the fallback `600.0` when it is
zero. -/
def effPrice2 (lookup : Option ℚ) : ℚ :=
  let p := get_price2 lookup
  if p = 0 then 600 else p

/-- Model of `src/main.py` `calculate_token_pnl` (lines 74–126).  The
returned list is the final frame: per-symbol rows in dict order followed by
the TOTAL row (empty input gives an empty frame). -/
def calculate_token_pnl1 (lookup : Option ℚ) (trades : List Trade) : List Row :=
  if trades = [] then [] else
  let rows := pnlRows (get_price1 lookup) trades
  if rows = [] then rows else rows ++ [totalRow1 rows]

/-- Model of `src/main2.py` `calculate_token_pnl` (lines 156–225): as the
`main.py` version, but the rows are sorted by `Net PnL` descending before
the TOTAL row is appended, the effective price has the zero fallback, and
the TOTAL row re-rounds its sums. -/
def calculate_token_pnl2 (lookup : Option ℚ) (trades : List Trade) : List Row :=
  if trades = [] then [] else
  let rows0 := pnlRows (effPrice2 lookup) trades
  if rows0 = [] then rows0 else
  let rows := sortByNetDesc rows0
  rows ++ [totalRow2 rows]

/-! ## Characterizing the grouping loop

`accSpec s trades` states, independently of the dict fold, what one
symbol's accumulator must contain: the filtered sums over that symbol's
trades, with the commission split by `commissionAsset`. -/

/-- Declarative description of one symbol's accumulator. -/
def accSpec (s : String) (trades : List Trade) : SymAcc :=
  { realized_pnl := ((trades.filter fun t => t.symbol = s).map Trade.realizedPnl).sum
    bnb_fees :=
      ((trades.filter fun t => t.symbol = s ∧ t.commissionAsset = "BNB").map
        Trade.commission).sum
    usdc_fees :=
      ((trades.filter fun t =>
          t.symbol = s ∧ (t.commissionAsset = "USDC" ∨ t.commissionAsset = "USDT")).map
        Trade.commission).sum
    trades := (trades.filter fun t => t.symbol = s).length }

theorem accSpec_nil (s : String) : accSpec s [] = acc0 := rfl

theorem accSpec_concat (s : String) (ts : List Trade) (t : Trade) :
    accSpec s (ts ++ [t]) = if t.symbol = s then bump (accSpec s ts) t else accSpec s ts := by
  by_cases hs : t.symbol = s
  · simp only [accSpec, bump, if_pos hs, SymAcc.mk.injEq, List.filter_append,
      List.map_append, List.sum_append, List.length_append]
    refine ⟨?_, ?_, ?_, ?_⟩
    · simp [List.filter_cons, hs]
    · by_cases hb : t.commissionAsset = "BNB" <;> simp [List.filter_cons, hs, hb]
    · by_cases hu : t.commissionAsset = "USDC" ∨ t.commissionAsset = "USDT" <;>
        simp [List.filter_cons, hs, hu]
    · simp [List.filter_cons, hs]
  · simp only [accSpec, if_neg hs, SymAcc.mk.injEq, List.filter_append,
      List.map_append, List.sum_append, List.length_append]
    refine ⟨?_, ?_, ?_, ?_⟩ <;> simp [List.filter_cons, hs]

theorem getAcc_updateAssoc (l : List (String × SymAcc)) (t : Trade) (s : String) :
    getAcc (updateAssoc l t) s =
      if t.symbol = s then bump (getAcc l s) t else getAcc l s := by
  induction l with
  | nil => by_cases h : t.symbol = s <;> simp [updateAssoc, getAcc, h]
  | cons e rest ih =>
    obtain ⟨k, a⟩ := e
    simp only [updateAssoc]
    by_cases hk : k = t.symbol
    · rw [if_pos hk]
      by_cases hs : k = s
      · have hts : t.symbol = s := hk ▸ hs
        simp [getAcc, hs, hts]
      · have hts : ¬t.symbol = s := fun h => hs (hk.trans h)
        simp [getAcc, hs, hts]
    · rw [if_neg hk]
      by_cases hs : k = s
      · have hts : ¬t.symbol = s := fun h => hk (hs.trans h.symm)
        simp [getAcc, hs, hts]
      · simp [getAcc, hs, ih]

theorem buildData_concat (ts : List Trade) (t : Trade) :
    buildData (ts ++ [t]) = updateAssoc (buildData ts) t := by
  simp [buildData, List.foldl_append]

/-- The dict fold computes exactly the declarative per-symbol sums. -/
theorem getAcc_buildData (trades : List Trade) (s : String) :
    getAcc (buildData trades) s = accSpec s trades := by
  induction trades using List.reverseRecOn with
  | nil => simp [buildData, getAcc, accSpec_nil]
  | append_singleton ts t ih =>
    rw [buildData_concat, getAcc_updateAssoc, accSpec_concat, ih]

theorem keys_updateAssoc (l : List (String × SymAcc)) (t : Trade) :
    (updateAssoc l t).map Prod.fst =
      if t.symbol ∈ l.map Prod.fst then l.map Prod.fst
      else l.map Prod.fst ++ [t.symbol] := by
  induction l with
  | nil => simp [updateAssoc]
  | cons e rest ih =>
    obtain ⟨k, a⟩ := e
    by_cases hk : k = t.symbol
    · subst hk; simp [updateAssoc]
    · have ht : ¬t.symbol = k := fun h => hk h.symm
      by_cases hm : t.symbol ∈ rest.map Prod.fst <;>
        simp [updateAssoc, hk, ht, ih, hm]

theorem keys_nodup (trades : List Trade) : ((buildData trades).map Prod.fst).Nodup := by
  induction trades using List.reverseRecOn with
  | nil => simp [buildData]
  | append_singleton ts t ih =>
    rw [buildData_concat, keys_updateAssoc]
    by_cases hm : t.symbol ∈ (buildData ts).map Prod.fst
    · simpa [hm] using ih
    · simpa [hm, List.nodup_append] using ih

theorem getAcc_of_mem :
    ∀ {l : List (String × SymAcc)}, (l.map Prod.fst).Nodup →
      ∀ {s : String} {a : SymAcc}, (s, a) ∈ l → getAcc l s = a := by
  intro l
  induction l with
  | nil => intro _ s a h; cases h
  | cons e rest ih =>
    obtain ⟨k, b⟩ := e
    intro hnd s a h
    rw [List.map_cons] at hnd
    have hnc := List.nodup_cons.mp hnd
    rcases List.mem_cons.mp h with h1 | h1
    · injection h1 with h2 h3
      subst h2; subst h3
      simp [getAcc]
    · have hk : ¬k = s := by
        intro hks
        subst hks
        exact hnc.1 (by simpa using List.mem_map_of_mem Prod.fst h1)
      simp only [getAcc, if_neg hk]
      exact ih hnc.2 h1

/-- Every entry of the dict is the declarative accumulator of its key. -/
theorem mem_buildData {trades : List Trade} {s : String} {a : SymAcc}
    (h : (s, a) ∈ buildData trades) : a = accSpec s trades := by
  rw [← getAcc_buildData]
  exact (getAcc_of_mem (keys_nodup trades) h).symm

theorem keys_buildData_subset (trades : List Trade) :
    ∀ x ∈ (buildData trades).map Prod.fst, x ∈ trades.map Trade.symbol := by
  induction trades using List.reverseRecOn with
  | nil => simp [buildData]
  | append_singleton ts t ih =>
    rw [buildData_concat, keys_updateAssoc]
    by_cases hm : t.symbol ∈ (buildData ts).map Prod.fst
    · intro x hx
      simp only [if_pos hm] at hx
      simpa using Or.inl (ih x hx)
    · intro x hx
      simp only [if_neg hm, List.mem_append, List.mem_singleton] at hx
      rcases hx with hx | hx
      · simpa using Or.inl (ih x hx)
      · simp [hx]

theorem updateAssoc_ne_nil (l : List (String × SymAcc)) (t : Trade) :
    updateAssoc l t ≠ [] := by
  cases l with
  | nil => simp [updateAssoc]
  | cons e rest =>
    obtain ⟨k, a⟩ := e
    by_cases hk : k = t.symbol <;> simp [updateAssoc, hk]

theorem buildData_ne_nil {trades : List Trade} (h : trades ≠ []) :
    buildData trades ≠ [] := by
  induction trades using List.reverseRecOn with
  | nil => exact absurd rfl h
  | append_singleton ts t _ => rw [buildData_concat]; exact updateAssoc_ne_nil _ _

theorem sumCounts_updateAssoc (l : List (String × SymAcc)) (t : Trade) :
    ((updateAssoc l t).map fun e => e.2.trades).sum
      = (l.map fun e => e.2.trades).sum + 1 := by
  induction l with
  | nil => simp [updateAssoc, bump, acc0]
  | cons e rest ih =>
    obtain ⟨k, a⟩ := e
    by_cases hk : k = t.symbol
    · simp [updateAssoc, hk, bump]; omega
    · simp [updateAssoc, hk, ih]; omega

/-- The dict's trade counts sum to the number of ingested trades. -/
theorem sumCounts_buildData (trades : List Trade) :
    ((buildData trades).map fun e => e.2.trades).sum = trades.length := by
  induction trades using List.reverseRecOn with
  | nil => simp [buildData]
  | append_singleton ts t ih =>
    rw [buildData_concat, sumCounts_updateAssoc, ih]
    simp

/-! ## Properties of the row sort -/

theorem insertByNet_perm (r : Row) (l : List Row) :
    List.Perm (insertByNet r l) (r :: l) := by
  induction l with
  | nil => rfl
  | cons x xs ih =>
    by_cases h : x.net_pnl < r.net_pnl
    · simp [insertByNet, h]
    · simp only [insertByNet, if_neg h]
      exact (List.Perm.cons x ih).trans (List.Perm.swap r x xs)

theorem sortByNetDesc_perm (l : List Row) : List.Perm (sortByNetDesc l) l := by
  induction l with
  | nil => rfl
  | cons x xs ih =>
    exact (insertByNet_perm x (sortByNetDesc xs)).trans (List.Perm.cons x ih)

theorem mem_insertByNet {y r : Row} {l : List Row} :
    y ∈ insertByNet r l ↔ y = r ∨ y ∈ l :=
  ⟨fun h => List.mem_cons.mp ((insertByNet_perm r l).mem_iff.mp h),
   fun h => (insertByNet_perm r l).mem_iff.mpr (List.mem_cons.mpr h)⟩

theorem pairwise_insertByNet {r : Row} {l : List Row}
    (h : l.Pairwise fun a b => b.net_pnl ≤ a.net_pnl) :
    (insertByNet r l).Pairwise fun a b => b.net_pnl ≤ a.net_pnl := by
  induction l with
  | nil => simp [insertByNet]
  | cons x xs ih =>
    rcases List.pairwise_cons.mp h with ⟨hx, hxs⟩
    by_cases hlt : x.net_pnl < r.net_pnl
    · simp only [insertByNet, if_pos hlt]
      refine List.pairwise_cons.mpr ⟨?_, h⟩
      intro y hy
      rcases List.mem_cons.mp hy with rfl | hy
      · exact le_of_lt hlt
      · exact le_trans (hx y hy) (le_of_lt hlt)
    · simp only [insertByNet, if_neg hlt]
      refine List.pairwise_cons.mpr ⟨?_, ih hxs⟩
      intro y hy
      rcases mem_insertByNet.mp hy with rfl | hy
      · exact le_of_not_lt hlt
      · exact hx y hy

/-- The sorted row list is descending in `net_pnl`. -/
theorem sortByNetDesc_pairwise (l : List Row) :
    (sortByNetDesc l).Pairwise fun a b => b.net_pnl ≤ a.net_pnl := by
  induction l with
  | nil => simp [sortByNetDesc]
  | cons x xs ih => exact pairwise_insertByNet ih

/-! ## Shapes of the aggregator output -/

theorem pnlRows_ne_nil (price : ℚ) {trades : List Trade} (h : trades ≠ []) :
    pnlRows price trades ≠ [] := by
  simp only [pnlRows, ne_eq, List.map_eq_nil_iff]
  exact buildData_ne_nil h

theorem sortByNetDesc_ne_nil {l : List Row} (h : l ≠ []) : sortByNetDesc l ≠ [] := by
  intro hc
  apply h
  have hlen := (sortByNetDesc_perm l).length_eq
  rw [hc] at hlen
  exact List.length_eq_zero.mp hlen.symm

theorem calc1_shape (lookup : Option ℚ) {trades : List Trade} (h : trades ≠ []) :
    calculate_token_pnl1 lookup trades =
      pnlRows (get_price1 lookup) trades
        ++ [totalRow1 (pnlRows (get_price1 lookup) trades)] := by
  simp [calculate_token_pnl1, h, pnlRows_ne_nil (get_price1 lookup) h]

theorem calc2_shape (lookup : Option ℚ) {trades : List Trade} (h : trades ≠ []) :
    calculate_token_pnl2 lookup trades =
      sortByNetDesc (pnlRows (effPrice2 lookup) trades)
        ++ [totalRow2 (sortByNetDesc (pnlRows (effPrice2 lookup) trades))] := by
  have hr : pnlRows (effPrice2 lookup) trades ≠ [] := pnlRows_ne_nil _ h
  simp [calculate_token_pnl2, h, hr]


/-! ## Claim C10: the file path of main2 ignores the period start -/

/-- C10: in `src/main2.py`, `get_trades_from_file` returns the same trade
list for any two `start_datetime` arguments over the same export file — the
date filter is commented out, so every file row contributes a trade
regardless of the requested period start. -/
theorem file_ingestion_ignores_start_date :
    ∀ (s1 s2 : ℤ) (rows : List FileRow),
      get_trades_from_file2 s1 rows = get_trades_from_file2 s2 rows
        ∧ (get_trades_from_file2 s1 rows).length = rows.length := by
  intro s1 s2 rows
  refine ⟨rfl, ?_⟩
  by_cases h : rows = [] <;> simp [get_trades_from_file2, h]

/-! ## Claim C5: the numeric normalizer (corrected) -/

/-- C5 counterexample: the claim is false of `src/main.py`'s normalizer
(one of the two cited sources): there, `"abc"`, `"1,234.5"` and `None` all
come out as `NaN` (`none`), not as `0.0`, `0.0` and `1234.5`. -/
theorem normalize_counterexample :
    normalize1 (RawCell.str "abc") = none
      ∧ normalize1 (RawCell.str "1,234.5") = none
      ∧ normalize1 RawCell.null = none
      ∧ (none : Option ℚ) ≠ some 0 ∧ (none : Option ℚ) ≠ some (12345/10) := by
  refine ⟨by decide, by decide, by decide, by decide, by decide⟩

/-- C5 amended: the claim holds of `src/main2.py`'s normalizer, which is
total into the rationals (never `NaN`): it strips the leading escape marker
and thousands separators, maps empty/`nan`/`None`/unparseable cells to `0.0`,
and otherwise parses the decimal.  (`src/main.py`'s variant lacks the
comma-stripping and the `NaN` fill, so unparseable cells stay `NaN` there.) -/
theorem normalize_main2_spec :
    normalize2 (RawCell.str "'0.5") = 1/2
      ∧ normalize2 (RawCell.str "") = 0
      ∧ normalize2 (RawCell.str "1,234.5") = 12345/10
      ∧ normalize2 (RawCell.str "abc") = 0
      ∧ normalize2 RawCell.null = 0
      ∧ normalize2 RawCell.nan = 0 := by
  refine ⟨?_, by decide, ?_, by decide, by decide, by decide⟩
  · simp +decide [normalize2, removeCommas, lstripApos, astypeStr, parseDecimal, parseUnsigned,
      digitsToNat, apos, List.splitOn, List.splitOnP, List.splitOnP.go]
    norm_num
  · simp +decide [normalize2, removeCommas, lstripApos, astypeStr, parseDecimal, parseUnsigned,
      digitsToNat, apos, List.splitOn, List.splitOnP, List.splitOnP.go]
    norm_num

/-! ## Claim C8: the canonical-trade invariant (corrected) -/

/-- A file row with an empty `Symbol` cell and an unparseable `Fee` cell. -/
def badFileRow : FileRow :=
  { date := 0, symbol := "", price := .str "1", quantity := .str "1",
    amount := .str "1", fee := .str "abc", realizedProfit := .str "1,5",
    feeCoin := "USDC" }

/-- C8 counterexample: `src/main.py`'s file ingestion neither enforces a
non-empty symbol nor finiteness of the commission — on a row with an empty
`Symbol` cell and a `Fee` cell of `"abc"` it emits a trade with an empty
symbol and a `NaN` (`none`) commission (and a `NaN` realized PnL, from the
comma that this variant does not strip). -/
theorem trade_invariant_counterexample :
    (get_trades_from_file1 0 [badFileRow]).length = 1
      ∧ ((get_trades_from_file1 0 [badFileRow]).headD default).symbol = ""
      ∧ ((get_trades_from_file1 0 [badFileRow]).headD default).commission = none
      ∧ ((get_trades_from_file1 0 [badFileRow]).headD default).realizedPnl = none := by
  refine ⟨by decide, by decide, by decide, by decide⟩

/-- C8 amended: `src/main2.py`'s file ingestion does guarantee finite
(non-`NaN`) numeric fields on every emitted trade, because its normalizer
ends in `fillna(0)`; the non-empty-symbol half of the invariant is enforced
by neither variant (the symbol cell is copied verbatim), and `src/main.py`'s
ingestion can also emit `NaN` commissions. -/
theorem main2_trades_finite :
    ∀ (startDt : ℤ) (rows : List FileRow) (t : RawTrade),
      t ∈ get_trades_from_file2 startDt rows →
        t.commission.isSome ∧ t.realizedPnl.isSome := by
  intro s rows t ht
  by_cases h : rows = []
  · simp [get_trades_from_file2, h] at ht
  · simp only [get_trades_from_file2, if_neg h] at ht
    obtain ⟨r, _, rfl⟩ := List.mem_map.mp ht
    exact ⟨rfl, rfl⟩

theorem main2_trades_finite_witness :
    ((get_trades_from_file2 0 [badFileRow]).headD default
        ∈ get_trades_from_file2 0 [badFileRow])
      ∧ ((get_trades_from_file2 0 [badFileRow]).headD default).commission.isSome
      ∧ ((get_trades_from_file2 0 [badFileRow]).headD default).realizedPnl.isSome := by
  have hmem : (get_trades_from_file2 0 [badFileRow]).headD default
      ∈ get_trades_from_file2 0 [badFileRow] := by
    simp [get_trades_from_file2]
  have hfin := main2_trades_finite 0 [badFileRow] _ hmem
  exact ⟨hmem, hfin.1, hfin.2⟩

/-! ## Claim C2: the price-oracle fallback (code bug in main.py) -/

/-- A trade paying a positive BNB-denominated fee. -/
def bnbFeeTrade : Trade := ⟨"BTCUSDC", 100, 1/100, "BNB"⟩

/-- C2: the claim matches `src/main2.py` (`get_price` returns the fixed
fallback `1.0` on a lookup failure, and `calculate_token_pnl` additionally
replaces a zero price by `600.0`, so a positive BNB fee converts to a
positive settlement amount), but `src/main.py`'s `get_price` returns `0.0`
on failure, which silently zeroes the converted fee — the very behaviour
the spec says the fallback exists to prevent.  Evaluation at the failing
input: a failed lookup plus one trade with a `0.01` BNB fee. -/
theorem price_fallback_bug_eval :
    get_price1 none = 0
      ∧ ((calculate_token_pnl1 none [bnbFeeTrade]).headD default).bnb_fees_usdc = 0
      ∧ get_price2 none = 1
      ∧ effPrice2 none = 1
      ∧ ((calculate_token_pnl2 none [bnbFeeTrade]).headD default).bnb_fees_usdc = 1/100
      ∧ (1 : ℚ)/100 ≠ 0 := by
  refine ⟨rfl, ?_, rfl, rfl, ?_, by norm_num⟩
  · simp [calculate_token_pnl1, pnlRows, buildData, updateAssoc, bump, acc0, mkRow,
      get_price1, totalRow1, bnbFeeTrade, pyRound, rhe]
    try norm_num [Int.fract]
  · simp [calculate_token_pnl2, pnlRows, buildData, updateAssoc, bump, acc0, mkRow,
      effPrice2, get_price2, sortByNetDesc, insertByNet, totalRow2, bnbFeeTrade, pyRound, rhe]
    try norm_num [Int.fract]

/-! ## Claim C3: commission classification (confirmed) -/

/-- C3: the grouping loop shared by both `calculate_token_pnl` variants
classifies each trade's commission into the BNB bucket exactly when
`commissionAsset == "BNB"`, into the stable-coin bucket exactly when it is
`"USDC"` or `"USDT"` (the filtered-sum characterization), and a trade with
any other asset still counts towards `trades` and `realized_pnl` while
leaving both fee buckets unchanged. -/
theorem commission_classification :
    (∀ (trades : List Trade) (s : String),
        getAcc (buildData trades) s = accSpec s trades)
      ∧ ∀ (pre : List Trade) (t : Trade),
          t.commissionAsset ≠ "BNB" → t.commissionAsset ≠ "USDC" →
          t.commissionAsset ≠ "USDT" →
            getAcc (buildData (pre ++ [t])) t.symbol =
              { getAcc (buildData pre) t.symbol with
                  realized_pnl :=
                    (getAcc (buildData pre) t.symbol).realized_pnl + t.realizedPnl
                  trades := (getAcc (buildData pre) t.symbol).trades + 1 } := by
  refine ⟨getAcc_buildData, ?_⟩
  intro pre t hb hu1 hu2
  rw [buildData_concat, getAcc_updateAssoc, if_pos rfl]
  simp [bump, hb, hu1, hu2]

theorem commission_classification_witness :
    ((⟨"BTCUSDC", 5, 3, "ETH"⟩ : Trade).commissionAsset ≠ "BNB")
      ∧ ((⟨"BTCUSDC", 5, 3, "ETH"⟩ : Trade).commissionAsset ≠ "USDC")
      ∧ ((⟨"BTCUSDC", 5, 3, "ETH"⟩ : Trade).commissionAsset ≠ "USDT")
      ∧ getAcc (buildData ([] ++ [(⟨"BTCUSDC", 5, 3, "ETH"⟩ : Trade)]))
            (⟨"BTCUSDC", 5, 3, "ETH"⟩ : Trade).symbol =
          { getAcc (buildData []) (⟨"BTCUSDC", 5, 3, "ETH"⟩ : Trade).symbol with
              realized_pnl :=
                (getAcc (buildData []) (⟨"BTCUSDC", 5, 3, "ETH"⟩ : Trade).symbol).realized_pnl
                  + (⟨"BTCUSDC", 5, 3, "ETH"⟩ : Trade).realizedPnl
              trades :=
                (getAcc (buildData []) (⟨"BTCUSDC", 5, 3, "ETH"⟩ : Trade).symbol).trades + 1 } :=
  ⟨by decide, by decide, by decide,
    commission_classification.2 [] _ (by decide) (by decide) (by decide)⟩

/-! ## Claim C4: trade-count conservation (confirmed) -/

theorem sum_trades_pnlRows (price : ℚ) (trades : List Trade) :
    ((pnlRows price trades).map Row.trades).sum = trades.length := by
  rw [pnlRows, List.map_map]
  exact sumCounts_buildData trades

theorem sum_trades_sorted (price : ℚ) (trades : List Trade) :
    ((sortByNetDesc (pnlRows price trades)).map Row.trades).sum = trades.length := by
  rw [List.Perm.sum_eq (List.Perm.map Row.trades (sortByNetDesc_perm _)),
    sum_trades_pnlRows]

/-- C4: in both variants, the per-symbol rows' trade counts sum to the
number of input trades, and (for non-empty input) the TOTAL row's count
equals that number as well. -/
theorem trade_count_conservation :
    ∀ (lookup : Option ℚ) (trades : List Trade),
      (((calculate_token_pnl1 lookup trades).dropLast.map Row.trades).sum = trades.length
        ∧ (trades ≠ [] →
            ((calculate_token_pnl1 lookup trades).getLastD default).trades = trades.length))
      ∧ (((calculate_token_pnl2 lookup trades).dropLast.map Row.trades).sum = trades.length
        ∧ (trades ≠ [] →
            ((calculate_token_pnl2 lookup trades).getLastD default).trades
              = trades.length)) := by
  intro lookup trades
  by_cases h : trades = []
  · subst h
    simp [calculate_token_pnl1, calculate_token_pnl2]
  · refine ⟨⟨?_, fun _ => ?_⟩, ⟨?_, fun _ => ?_⟩⟩
    · rw [calc1_shape lookup h, List.dropLast_concat, sum_trades_pnlRows]
    · rw [calc1_shape lookup h, List.getLastD_concat]
      exact sum_trades_pnlRows _ trades
    · rw [calc2_shape lookup h, List.dropLast_concat, sum_trades_sorted]
    · rw [calc2_shape lookup h, List.getLastD_concat]
      exact sum_trades_sorted _ trades

theorem trade_count_conservation_witness :
    (([⟨"BTCUSDC", 1, 0, "USDC"⟩] : List Trade) ≠ [])
      ∧ ((calculate_token_pnl1 (some 600)
            [(⟨"BTCUSDC", 1, 0, "USDC"⟩ : Trade)]).getLastD default).trades = 1
      ∧ ((calculate_token_pnl2 (some 600)
            [(⟨"BTCUSDC", 1, 0, "USDC"⟩ : Trade)]).getLastD default).trades = 1 :=
  ⟨by decide,
    (trade_count_conservation (some 600) _).1.2 (by decide),
    (trade_count_conservation (some 600) _).2.2 (by decide)⟩

/-! ## Claim C7: row ordering (corrected) -/

/-- C7 counterexample: `src/main.py`'s aggregator (one of the two cited
sources) performs no sort at all — with a losing symbol first and a winning
symbol second, its per-symbol rows come out ascending in `net_pnl`, not
descending. -/
theorem rows_sorted_counterexample :
    ((calculate_token_pnl1 (some 600)
        [(⟨"AAAUSDC", -1, 0, "USDC"⟩ : Trade), (⟨"BBBUSDC", 1, 0, "USDC"⟩ : Trade)]).dropLast.map
        Row.net_pnl) = [-1, 1]
      ∧ ¬ ((1 : ℚ) ≤ -1) := by
  constructor
  · simp [calculate_token_pnl1, pnlRows, buildData, updateAssoc, bump, acc0, mkRow,
      get_price1, totalRow1, pyRound, rhe]
    try norm_num [Int.fract]
  · norm_num

/-- C7 amended: `src/main2.py` sorts the per-symbol rows by `net_pnl`
descending; the tie order is whatever the underlying sort leaves (pandas'
default quicksort fixes none, and no symbol-ascending tie-break exists in
the code), and `src/main.py` emits the rows unsorted, in first-occurrence
order. -/
theorem main2_rows_sorted_desc :
    ∀ (lookup : Option ℚ) (trades : List Trade),
      ((calculate_token_pnl2 lookup trades).dropLast).Pairwise
        fun a b => b.net_pnl ≤ a.net_pnl := by
  intro lookup trades
  by_cases h : trades = []
  · subst h; simp [calculate_token_pnl2]
  · rw [calc2_shape lookup h, List.dropLast_concat]
    exact sortByNetDesc_pairwise _

/-! ## Claim C9: presence and placement of the TOTAL row (corrected) -/

theorem token_mem_symbols {price : ℚ} {trades : List Trade} {r : Row}
    (h : r ∈ pnlRows price trades) : r.token ∈ trades.map Trade.symbol := by
  obtain ⟨e, he, rfl⟩ := List.mem_map.mp h
  exact keys_buildData_subset trades _ (List.mem_map_of_mem Prod.fst he)

/-- C9 counterexample: the "exactly one TOTAL row" part of the claim fails
on a trade whose symbol is literally `"TOTAL"` — `src/main2.py` then emits
a per-symbol row labelled `TOTAL` followed by the synthetic TOTAL row, two
rows with that token. -/
theorem total_row_counterexample :
    ((calculate_token_pnl2 (some 600) [(⟨"TOTAL", 1, 0, "USDC"⟩ : Trade)]).countP
        fun r => r.token == "TOTAL") = 2 := by
  simp [calculate_token_pnl2, pnlRows, buildData, updateAssoc, bump, acc0, mkRow,
    effPrice2, get_price2, sortByNetDesc, insertByNet, totalRow2, List.countP_cons]

/-- C9 amended: `src/main2.py`'s report contains a `TOTAL`-labelled row iff
the input is non-empty (empty input yields an empty frame); for non-empty
input the final row is the TOTAL row, and — provided no input trade itself
carries the symbol `"TOTAL"` — it is the only row with that token. -/
theorem total_row_placement :
    ∀ (lookup : Option ℚ) (trades : List Trade),
      ((∃ r ∈ calculate_token_pnl2 lookup trades, r.token = "TOTAL") ↔ trades ≠ [])
        ∧ (trades ≠ [] →
            ((calculate_token_pnl2 lookup trades).getLastD default).token = "TOTAL")
        ∧ ((∀ t ∈ trades, t.symbol ≠ "TOTAL") →
            ((calculate_token_pnl2 lookup trades).countP fun r => r.token == "TOTAL")
              = if trades = [] then 0 else 1) := by
  intro lookup trades
  by_cases h : trades = []
  · subst h
    simp [calculate_token_pnl2]
  · have hshape := calc2_shape lookup h
    refine ⟨⟨fun _ => h, fun _ => ?_⟩, fun _ => ?_, fun hno => ?_⟩
    · exact ⟨totalRow2 (sortByNetDesc (pnlRows (effPrice2 lookup) trades)),
        by rw [hshape]; simp, rfl⟩
    · rw [hshape, List.getLastD_concat]; rfl
    · rw [hshape, List.countP_append, if_neg h]
      have hrows : ((sortByNetDesc (pnlRows (effPrice2 lookup) trades)).countP
          fun r => r.token == "TOTAL") = 0 := by
        rw [List.countP_eq_zero]
        intro r hr
        have hmem : r ∈ pnlRows (effPrice2 lookup) trades :=
          (sortByNetDesc_perm _).mem_iff.mp hr
        have hsym := token_mem_symbols hmem
        obtain ⟨t, ht, hts⟩ := List.mem_map.mp hsym
        have : r.token ≠ "TOTAL" := hts ▸ hno t ht
        simpa using this
      rw [hrows]
      rfl

theorem total_row_placement_witness :
    (([(⟨"BTCUSDC", 1, 0, "USDC"⟩ : Trade)] : List Trade) ≠ [])
      ∧ (∀ t ∈ ([(⟨"BTCUSDC", 1, 0, "USDC"⟩ : Trade)] : List Trade), t.symbol ≠ "TOTAL")
      ∧ ((calculate_token_pnl2 (some 600)
            [(⟨"BTCUSDC", 1, 0, "USDC"⟩ : Trade)]).getLastD default).token = "TOTAL"
      ∧ ((calculate_token_pnl2 (some 600)
            [(⟨"BTCUSDC", 1, 0, "USDC"⟩ : Trade)]).countP fun r => r.token == "TOTAL")
          = if ([(⟨"BTCUSDC", 1, 0, "USDC"⟩ : Trade)] : List Trade) = [] then 0 else 1 :=
  ⟨by decide, by decide,
    (total_row_placement (some 600) _).2.1 (by decide),
    (total_row_placement (some 600) _).2.2 (by decide)⟩

/-! ## Claim C1: the TOTAL row sums the rounded rows (confirmed) -/

/-- Field-wise: `t` is the column-sum of `rows`. -/
def fieldwiseSum (rows : List Row) (t : Row) : Prop :=
  t.realized_pnl = (rows.map Row.realized_pnl).sum
    ∧ t.bnb_fees = (rows.map Row.bnb_fees).sum
    ∧ t.bnb_fees_usdc = (rows.map Row.bnb_fees_usdc).sum
    ∧ t.usdc_fees = (rows.map Row.usdc_fees).sum
    ∧ t.total_fees = (rows.map Row.total_fees).sum
    ∧ t.net_pnl = (rows.map Row.net_pnl).sum
    ∧ t.trades = (rows.map Row.trades).sum

theorem sorted_rows_field_multiple (price : ℚ) (trades : List Trade) (f : Row → ℚ)
    (n : ℕ) (hf : ∀ e, ∃ k : ℤ, f (mkRow price e) = (k : ℚ) / 10 ^ n) :
    ∀ x ∈ (sortByNetDesc (pnlRows price trades)).map f,
      ∃ k : ℤ, x = (k : ℚ) / 10 ^ n := by
  intro x hx
  obtain ⟨r, hr, rfl⟩ := List.mem_map.mp hx
  have hmem : r ∈ pnlRows price trades := (sortByNetDesc_perm _).mem_iff.mp hr
  obtain ⟨e, _, rfl⟩ := List.mem_map.mp hmem
  exact hf e

/-- C1: for non-empty input, the TOTAL row of either variant is the
field-wise sum of the already-rounded per-symbol rows; in particular
`total.net_pnl` is exactly the sum of the displayed `net_pnl` values.  (In
`main.py` the TOTAL row is built as these sums verbatim; in `main2.py` the
sums pass through `round` once more, which is the identity on sums of
already-rounded values.) -/
theorem total_is_sum_of_rounded_rows :
    ∀ (lookup : Option ℚ) (trades : List Trade), trades ≠ [] →
      fieldwiseSum (calculate_token_pnl1 lookup trades).dropLast
          ((calculate_token_pnl1 lookup trades).getLastD default)
        ∧ fieldwiseSum (calculate_token_pnl2 lookup trades).dropLast
          ((calculate_token_pnl2 lookup trades).getLastD default) := by
  intro lookup trades h
  constructor
  · rw [calc1_shape lookup h, List.dropLast_concat, List.getLastD_concat]
    exact ⟨rfl, rfl, rfl, rfl, rfl, rfl, rfl⟩
  · rw [calc2_shape lookup h, List.dropLast_concat, List.getLastD_concat]
    refine ⟨?_, ?_, ?_, ?_, ?_, ?_, rfl⟩
    · exact pyRound_eq_self (sum_isMultiple
        (sorted_rows_field_multiple _ trades Row.realized_pnl 2
          fun e => pyRound_isMultiple 2 _))
    · exact pyRound_eq_self (sum_isMultiple
        (sorted_rows_field_multiple _ trades Row.bnb_fees 5
          fun e => pyRound_isMultiple 5 _))
    · exact pyRound_eq_self (sum_isMultiple
        (sorted_rows_field_multiple _ trades Row.bnb_fees_usdc 2
          fun e => pyRound_isMultiple 2 _))
    · exact pyRound_eq_self (sum_isMultiple
        (sorted_rows_field_multiple _ trades Row.usdc_fees 2
          fun e => pyRound_isMultiple 2 _))
    · exact pyRound_eq_self (sum_isMultiple
        (sorted_rows_field_multiple _ trades Row.total_fees 2
          fun e => pyRound_isMultiple 2 _))
    · exact pyRound_eq_self (sum_isMultiple
        (sorted_rows_field_multiple _ trades Row.net_pnl 2
          fun e => pyRound_isMultiple 2 _))

theorem total_is_sum_of_rounded_rows_witness :
    (([(⟨"ETHUSDC", 7, 2, "BNB"⟩ : Trade)] : List Trade) ≠ [])
      ∧ (fieldwiseSum
            (calculate_token_pnl1 (some 600) [(⟨"ETHUSDC", 7, 2, "BNB"⟩ : Trade)]).dropLast
            ((calculate_token_pnl1 (some 600)
              [(⟨"ETHUSDC", 7, 2, "BNB"⟩ : Trade)]).getLastD default)
          ∧ fieldwiseSum
            (calculate_token_pnl2 (some 600) [(⟨"ETHUSDC", 7, 2, "BNB"⟩ : Trade)]).dropLast
            ((calculate_token_pnl2 (some 600)
              [(⟨"ETHUSDC", 7, 2, "BNB"⟩ : Trade)]).getLastD default)) :=
  ⟨by decide, total_is_sum_of_rounded_rows (some 600) _ (by decide)⟩

/-! ## Claim C6: which quantities are rounded, and how (corrected) -/

/-- The fields of an emitted per-symbol row are Python-`round`ed (i.e.
half-to-even) images of the declarative accumulator sums: monetary fields at
2 decimals, the BNB quantity at 5. -/
def rowSpecHolds (price : ℚ) (trades : List Trade) (r : Row) : Prop :=
  r.realized_pnl = pyRound 2 (accSpec r.token trades).realized_pnl
    ∧ r.bnb_fees = pyRound 5 (accSpec r.token trades).bnb_fees
    ∧ r.bnb_fees_usdc = pyRound 2 ((accSpec r.token trades).bnb_fees * price)
    ∧ r.usdc_fees = pyRound 2 (accSpec r.token trades).usdc_fees
    ∧ r.total_fees = pyRound 2
        ((accSpec r.token trades).bnb_fees * price + (accSpec r.token trades).usdc_fees)
    ∧ r.net_pnl = pyRound 2
        ((accSpec r.token trades).realized_pnl
          - ((accSpec r.token trades).bnb_fees * price
              + (accSpec r.token trades).usdc_fees))
    ∧ r.trades = (accSpec r.token trades).trades

theorem mem_pnlRows_spec {price : ℚ} {trades : List Trade} {r : Row}
    (h : r ∈ pnlRows price trades) : rowSpecHolds price trades r := by
  obtain ⟨e, he, rfl⟩ := List.mem_map.mp h
  obtain ⟨s, a⟩ := e
  have ha : a = accSpec s trades := mem_buildData he
  subst ha
  exact ⟨rfl, rfl, rfl, rfl, rfl, rfl, rfl⟩

/-- C6 counterexample: the rounding is Python's `round`, which is
round-half-to-even, not round-half-away-from-zero as claimed: a symbol
whose accumulated realized PnL is `0.125` is displayed as `0.12`, while
half-away-from-zero rounding of `0.125` is `0.13`. -/
theorem rounding_semantics_counterexample :
    ((calculate_token_pnl2 (some 600)
        [(⟨"BTCUSDC", 1/8, 0, "USDC"⟩ : Trade)]).headD default).realized_pnl = 12/100
      ∧ roundHalfAway 2 (1/8) = 13/100
      ∧ (12 : ℚ)/100 ≠ 13/100 := by
  refine ⟨?_, ?_, by norm_num⟩
  · simp [calculate_token_pnl2, pnlRows, buildData, updateAssoc, bump, acc0, mkRow,
      effPrice2, get_price2, sortByNetDesc, insertByNet, totalRow2, pyRound, rhe]
    try norm_num [Int.fract]
  · simp [roundHalfAway]
    try norm_num

/-- C6 amended: every emitted per-symbol row of either variant carries the
settlement-currency monetary fields rounded to 2 decimal places and the BNB
fee quantity to 5 decimal places — with Python `round`'s
round-half-to-even semantics (not half-away-from-zero) — applied to the
exact accumulated per-symbol sums. -/
theorem row_fields_rounded :
    ∀ (lookup : Option ℚ) (trades : List Trade) (r : Row),
      (r ∈ (calculate_token_pnl1 lookup trades).dropLast →
        rowSpecHolds (get_price1 lookup) trades r)
      ∧ (r ∈ (calculate_token_pnl2 lookup trades).dropLast →
        rowSpecHolds (effPrice2 lookup) trades r) := by
  intro lookup trades r
  by_cases h : trades = []
  · subst h
    constructor <;>
      (intro hr; simp [calculate_token_pnl1, calculate_token_pnl2] at hr)
  · constructor
    · intro hr
      rw [calc1_shape lookup h, List.dropLast_concat] at hr
      exact mem_pnlRows_spec hr
    · intro hr
      rw [calc2_shape lookup h, List.dropLast_concat] at hr
      exact mem_pnlRows_spec ((sortByNetDesc_perm _).mem_iff.mp hr)

theorem row_fields_rounded_witness :
    rowSpecHolds (effPrice2 (some 600)) [(⟨"BTCUSDC", 100, 1/100, "BNB"⟩ : Trade)]
      (⟨"BTCUSDC", 100, 1/100, 6, 0, 6, 94, 1⟩ : Row) :=
  (row_fields_rounded (some 600) [(⟨"BTCUSDC", 100, 1/100, "BNB"⟩ : Trade)]
      (⟨"BTCUSDC", 100, 1/100, 6, 0, 6, 94, 1⟩ : Row)).2 (by
    simp [calculate_token_pnl2, pnlRows, buildData, updateAssoc, bump, acc0, mkRow,
      effPrice2, get_price2, sortByNetDesc, insertByNet, totalRow2, List.dropLast,
      pyRound, rhe]
    try norm_num [Int.fract])
